import Mathlib

/-!
Verification of the NEM Open Electricity data puller
(`revenue_new_python_file.py` and the single-period variant
`revenue_python_file.py`).

The development shallowly embeds the pure core of the scripts:
* the Gregorian calendar arithmetic used by `calculate_date_periods`
  (`pd.Timestamp`, `datetime`, `relativedelta(years=1)`, `timedelta(days=1)`),
* the period-chunking loop itself,
* the per-result metadata merging and region filtering done inside
  `fetch_data_for_period`,
* the DUID lifecycle categorization (`categorize_duids`),
* the monthly group-by-sum aggregation and the output column selection
  (`create_output_files` and the single-period branch of `main`).

Numeric measurement values are modelled as rationals (the Python floats are
used only for sums and a division by 1,000,000).
-/

namespace NEM

/-! ### Calendar arithmetic

Models the Gregorian calendar as used by `datetime` / `pandas.Timestamp`.
`Date.ord` is the proleptic-Gregorian day number (rata die), used to model
comparison and subtraction of `datetime` values. -/

def isLeap (y : Nat) : Bool :=
  (y % 4 == 0 && y % 100 != 0) || (y % 400 == 0)

def leapBit (y : Nat) : Nat := if isLeap y then 1 else 0

def daysInMonth (y m : Nat) : Nat :=
  if m = 2 then (if isLeap y then 29 else 28)
  else if m = 4 ∨ m = 6 ∨ m = 9 ∨ m = 11 then 30
  else 31

/-- Days in year `y` strictly before month `m` (month 1 = January). -/
def monthOffset (y : Nat) : Nat → Nat
  | 0 => 0
  | 1 => 0
  | m + 2 => monthOffset y (m + 1) + daysInMonth y (m + 1)

/-- Cumulative days before month `m` in a non-leap year. -/
def moBase : Nat → Nat
  | 1 => 0
  | 2 => 31
  | 3 => 59
  | 4 => 90
  | 5 => 120
  | 6 => 151
  | 7 => 181
  | 8 => 212
  | 9 => 243
  | 10 => 273
  | 11 => 304
  | 12 => 334
  | 13 => 365
  | _ => 0

/-- Number of leap years in `[1, y]`. -/
def leapCount (y : Nat) : Nat := y / 4 + y / 400 - y / 100

def yearLength (y : Nat) : Nat := 365 + leapBit y

structure Date where
  y : Nat
  m : Nat
  d : Nat
deriving DecidableEq

def Date.Valid (dt : Date) : Prop :=
  1 ≤ dt.y ∧ 1 ≤ dt.m ∧ dt.m ≤ 12 ∧ 1 ≤ dt.d ∧ dt.d ≤ daysInMonth dt.y dt.m

instance (dt : Date) : Decidable dt.Valid := by
  unfold Date.Valid; infer_instance

/-- Day count of the start of year `y` (rata die of Jan 1, `y`, minus 1). -/
def yearsOffset (y : Nat) : Nat := 365 * (y - 1) + leapCount (y - 1)

/-- Proleptic Gregorian day number: `ord ⟨1,1,1⟩ = 0`. -/
def Date.ord (dt : Date) : Nat :=
  yearsOffset dt.y + monthOffset dt.y dt.m + (dt.d - 1)

/-- `date + timedelta(days=1)`. -/
def Date.succ (dt : Date) : Date :=
  if dt.d < daysInMonth dt.y dt.m then ⟨dt.y, dt.m, dt.d + 1⟩
  else if dt.m < 12 then ⟨dt.y, dt.m + 1, 1⟩
  else ⟨dt.y + 1, 1, 1⟩

/-- `date - timedelta(days=1)`. -/
def Date.pred (dt : Date) : Date :=
  if 1 < dt.d then ⟨dt.y, dt.m, dt.d - 1⟩
  else if 1 < dt.m then ⟨dt.y, dt.m - 1, daysInMonth dt.y (dt.m - 1)⟩
  else ⟨dt.y - 1, 12, 31⟩

/-- `date + relativedelta(years=1)` (dateutil clamps the day to the target
month's length). -/
def addYears1 (dt : Date) : Date :=
  ⟨dt.y + 1, dt.m, min dt.d (daysInMonth (dt.y + 1) dt.m)⟩

lemma daysInMonth_ge (y m : Nat) : 28 ≤ daysInMonth y m := by
  unfold daysInMonth
  split
  · split <;> omega
  · split <;> omega

lemma daysInMonth_le (y m : Nat) : daysInMonth y m ≤ 31 := by
  unfold daysInMonth
  split
  · split <;> omega
  · split <;> omega

lemma monthOffset_succ (y m : Nat) (h : 1 ≤ m) :
    monthOffset y (m + 1) = monthOffset y m + daysInMonth y m := by
  match m, h with
  | m + 1, _ => rfl

lemma isLeap_iff (y : Nat) :
    isLeap y = true ↔ (y % 4 = 0 ∧ y % 100 ≠ 0) ∨ y % 400 = 0 := by
  simp [isLeap]

lemma monthOffset_eq (y m : Nat) (h1 : 1 ≤ m) (h2 : m ≤ 13) :
    monthOffset y m = moBase m + (if 3 ≤ m then leapBit y else 0) := by
  interval_cases m <;>
    simp [monthOffset, daysInMonth, moBase, leapBit] <;>
    cases h : isLeap y <;> simp [h]

lemma leapCount_succ (y : Nat) :
    leapCount (y + 1) = leapCount y + leapBit (y + 1) := by
  unfold leapCount leapBit
  rcases h : isLeap (y + 1) with _ | _ <;>
    simp only [Bool.false_eq_true, if_false, if_true]
  · have h' : ¬(((y + 1) % 4 = 0 ∧ (y + 1) % 100 ≠ 0) ∨ (y + 1) % 400 = 0) := by
      rw [← isLeap_iff, h]; simp
    push_neg at h'
    obtain ⟨h1, h2⟩ := h'
    omega
  · rw [isLeap_iff] at h
    rcases h with ⟨h4, h100⟩ | h400
    · omega
    · omega

lemma yearsOffset_succ (y : Nat) (h : 1 ≤ y) :
    yearsOffset (y + 1) = yearsOffset y + yearLength y := by
  unfold yearsOffset yearLength
  have h1 : y + 1 - 1 = (y - 1) + 1 := by omega
  rw [h1, leapCount_succ]
  have h2 : (y - 1) + 1 = y := by omega
  rw [h2]
  ring_nf
  omega

lemma monthOffset_mono (y : Nat) {m m' : Nat} (h1 : 1 ≤ m) (h : m ≤ m') :
    monthOffset y m ≤ monthOffset y m' := by
  induction m', h using Nat.le_induction with
  | base => exact Nat.le_refl _
  | succ k hk ih =>
    have hk1 : 1 ≤ k := le_trans h1 hk
    rw [monthOffset_succ y k hk1]
    omega

lemma monthOffset_13 (y : Nat) : monthOffset y 13 = 365 + leapBit y := by
  rw [monthOffset_eq y 13 (by omega) (by omega)]
  simp [moBase]

lemma ofs_lt_yearLength {y m d : Nat} (h1 : 1 ≤ m) (h2 : m ≤ 12)
    (h4 : d ≤ daysInMonth y m) :
    monthOffset y m + (d - 1) < yearLength y := by
  have h5 : monthOffset y (m + 1) ≤ monthOffset y 13 :=
    monthOffset_mono y (by omega) (by omega)
  rw [monthOffset_succ y m h1] at h5
  rw [monthOffset_13] at h5
  have h6 := daysInMonth_ge y m
  unfold yearLength
  omega

lemma yearsOffset_mono {y y' : Nat} (h0 : 1 ≤ y) (h : y ≤ y') :
    yearsOffset y ≤ yearsOffset y' := by
  induction y', h using Nat.le_induction with
  | base => exact Nat.le_refl _
  | succ k hk ih =>
    rw [yearsOffset_succ k (le_trans h0 hk)]
    omega

lemma ord_lt_of_year_lt {a b : Date} (ha : a.Valid) (hb : b.Valid)
    (h : a.y < b.y) : a.ord < b.ord := by
  obtain ⟨hay, ham1, ham2, had1, had2⟩ := ha
  obtain ⟨hby, hbm1, hbm2, hbd1, hbd2⟩ := hb
  have h1 : a.ord < yearsOffset a.y + yearLength a.y := by
    have := @ofs_lt_yearLength a.y a.m a.d ham1 ham2 had2
    unfold Date.ord
    omega
  rw [← yearsOffset_succ a.y hay] at h1
  have h2 : yearsOffset (a.y + 1) ≤ yearsOffset b.y :=
    yearsOffset_mono (by omega) (by omega)
  have h3 : yearsOffset b.y ≤ b.ord := by
    unfold Date.ord
    omega
  omega

lemma ord_lt_of_month_lt {a b : Date} (ha : a.Valid) (hb : b.Valid)
    (hy : a.y = b.y) (h : a.m < b.m) : a.ord < b.ord := by
  obtain ⟨hay, ham1, ham2, had1, had2⟩ := ha
  obtain ⟨hby, hbm1, hbm2, hbd1, hbd2⟩ := hb
  have h1 : monthOffset a.y (a.m + 1) ≤ monthOffset a.y b.m :=
    monthOffset_mono a.y (by omega) (by omega)
  rw [monthOffset_succ a.y a.m ham1] at h1
  unfold Date.ord
  rw [← hy] at hbd2 ⊢
  omega

lemma ord_inj {a b : Date} (ha : a.Valid) (hb : b.Valid)
    (h : a.ord = b.ord) : a = b := by
  rcases Nat.lt_trichotomy a.y b.y with hy | hy | hy
  · exact absurd h (Nat.ne_of_lt (ord_lt_of_year_lt ha hb hy))
  · rcases Nat.lt_trichotomy a.m b.m with hm | hm | hm
    · exact absurd h (Nat.ne_of_lt (ord_lt_of_month_lt ha hb hy hm))
    · have hd : a.d = b.d := by
        obtain ⟨_, _, _, had1, _⟩ := ha
        obtain ⟨_, _, _, hbd1, _⟩ := hb
        unfold Date.ord at h
        rw [hy, hm] at h
        omega
      cases a; cases b
      simp_all
    · exact absurd h.symm (Nat.ne_of_lt (ord_lt_of_month_lt hb ha hy.symm hm))
  · exact absurd h.symm (Nat.ne_of_lt (ord_lt_of_year_lt hb ha hy))

lemma addYears1_day1 (y m : Nat) :
    addYears1 ⟨y, m, 1⟩ = ⟨y + 1, m, 1⟩ := by
  unfold addYears1
  have := daysInMonth_ge (y + 1) m
  simp only
  congr 1
  omega

lemma ord_day1_succ_year {y m : Nat} (h1 : 1 ≤ m) (h2 : m ≤ 12) (hy : 1 ≤ y) :
    Date.ord ⟨y + 1, m, 1⟩ =
      Date.ord ⟨y, m, 1⟩ + 365 + (if 3 ≤ m then leapBit (y + 1) else leapBit y) := by
  unfold Date.ord
  simp only
  rw [yearsOffset_succ y hy,
      monthOffset_eq (y + 1) m h1 (by omega),
      monthOffset_eq y m h1 (by omega)]
  unfold yearLength
  split <;> omega

lemma daysInMonth_12 (y : Nat) : daysInMonth y 12 = 31 := by
  norm_num [daysInMonth]

lemma pred_day1_spec {y m : Nat} (h1 : 1 ≤ m) (h2 : m ≤ 12) (hy : 1 ≤ y) :
    (Date.pred ⟨y + 1, m, 1⟩).Valid ∧
    (Date.pred ⟨y + 1, m, 1⟩).d =
      daysInMonth (Date.pred ⟨y + 1, m, 1⟩).y (Date.pred ⟨y + 1, m, 1⟩).m ∧
    (Date.pred ⟨y + 1, m, 1⟩).ord + 1 = Date.ord ⟨y + 1, m, 1⟩ ∧
    Date.succ (Date.pred ⟨y + 1, m, 1⟩) = ⟨y + 1, m, 1⟩ := by
  by_cases hm : m = 1
  · subst hm
    have hpred : Date.pred ⟨y + 1, 1, 1⟩ = ⟨y, 12, 31⟩ := by
      unfold Date.pred
      simp
    rw [hpred]
    refine ⟨?_, ?_, ?_, ?_⟩
    · unfold Date.Valid
      dsimp only
      rw [daysInMonth_12]
      omega
    · simp [daysInMonth_12]
    · show Date.ord ⟨y, 12, 31⟩ + 1 = Date.ord ⟨y + 1, 1, 1⟩
      unfold Date.ord
      simp only
      rw [yearsOffset_succ y hy, monthOffset_eq y 12 (by omega) (by omega),
          monthOffset_eq (y + 1) 1 (by omega) (by omega)]
      unfold yearLength
      simp [moBase]
      omega
    · unfold Date.succ
      rw [daysInMonth_12]
      simp
  · have hm2 : 2 ≤ m := by omega
    have hpred : Date.pred ⟨y + 1, m, 1⟩ = ⟨y + 1, m - 1, daysInMonth (y + 1) (m - 1)⟩ := by
      unfold Date.pred
      simp only
      rw [if_neg (by omega), if_pos (by omega)]
    rw [hpred]
    have hdim := daysInMonth_ge (y + 1) (m - 1)
    refine ⟨?_, rfl, ?_, ?_⟩
    · unfold Date.Valid
      dsimp only
      omega
    · show Date.ord ⟨y + 1, m - 1, daysInMonth (y + 1) (m - 1)⟩ + 1 = Date.ord ⟨y + 1, m, 1⟩
      unfold Date.ord
      simp only
      have hstep : monthOffset (y + 1) ((m - 1) + 1) =
          monthOffset (y + 1) (m - 1) + daysInMonth (y + 1) (m - 1) :=
        monthOffset_succ (y + 1) (m - 1) (by omega)
      have hmeq : (m - 1) + 1 = m := by omega
      rw [hmeq] at hstep
      omega
    · unfold Date.succ
      simp only
      rw [if_neg (by omega), if_pos (by omega)]
      congr 1
      omega

lemma ord_succ_lastday {dt : Date} (hv : dt.Valid)
    (hd : dt.d = daysInMonth dt.y dt.m) :
    (Date.succ dt).ord = dt.ord + 1 := by
  obtain ⟨hy, hm1, hm2, hd1, hd2⟩ := hv
  unfold Date.succ
  rw [if_neg (by omega)]
  by_cases hm : dt.m < 12
  · rw [if_pos hm]
    show yearsOffset dt.y + monthOffset dt.y (dt.m + 1) + (1 - 1) = dt.ord + 1
    rw [monthOffset_succ dt.y dt.m hm1]
    unfold Date.ord
    omega
  · rw [if_neg hm]
    have hm12 : dt.m = 12 := by omega
    show yearsOffset (dt.y + 1) + monthOffset (dt.y + 1) 1 + (1 - 1) = dt.ord + 1
    rw [yearsOffset_succ dt.y hy]
    unfold Date.ord yearLength
    rw [hm12] at hd ⊢
    rw [monthOffset_eq dt.y 12 (by omega) (by omega),
        monthOffset_eq (dt.y + 1) 1 (by omega) (by omega)]
    rw [daysInMonth_12] at hd
    simp [moBase]
    omega

lemma leapBit_le (y : Nat) : leapBit y ≤ 1 := by
  unfold leapBit
  split <;> omega

/-! ### Period Chunker (`calculate_date_periods`) -/

/-- The `while current_start < end_date` loop of `calculate_date_periods`,
with explicit fuel (the loop advances by about a year per iteration, so
`e.ord - s.ord` fuel is always enough). -/
def chunkLoop (e : Date) : Nat → Date → List (Date × Date)
  | 0, _ => []
  | fuel + 1, s =>
    if s.ord < e.ord then
      let ce0 := Date.pred (addYears1 s)
      let ce := if e.ord < ce0.ord then e else ce0
      (s, ce) :: chunkLoop e fuel ce.succ
    else []

/-- `(pd.Timestamp(f'{next_year}-{next_month:02d}-01') - pd.Timedelta(days=1)).day`. -/
def lastDayCalc (ey em : Nat) : Nat :=
  if em = 12 then (Date.pred ⟨ey + 1, 1, 1⟩).d
  else (Date.pred ⟨ey, em + 1, 1⟩).d

/-- `calculate_date_periods(start_month, start_year, end_month, end_year)`. -/
def calculate_date_periods (sm sy em ey : Nat) : List (Date × Date) :=
  let s : Date := ⟨sy, sm, 1⟩
  let e : Date := ⟨ey, em, lastDayCalc ey em⟩
  let totalDays : Int := (e.ord : Int) - (s.ord : Int)
  if totalDays ≤ 365 then [(s, e)]
  else chunkLoop e (e.ord - s.ord) s

lemma lastDayCalc_eq {ey em : Nat} (h1 : 1 ≤ em) (h2 : em ≤ 12) (_hy : 1 ≤ ey) :
    lastDayCalc ey em = daysInMonth ey em := by
  unfold lastDayCalc
  by_cases h12 : em = 12
  · subst h12
    rw [if_pos rfl]
    unfold Date.pred
    simp [daysInMonth_12]
  · rw [if_neg h12]
    unfold Date.pred
    simp only
    rw [if_neg (by omega), if_pos (by omega)]
    show daysInMonth ey (em + 1 - 1) = daysInMonth ey em
    norm_num

lemma chunkLoop_nil {e x : Date} (h : ¬ x.ord < e.ord) :
    ∀ fuel, chunkLoop e fuel x = []
  | 0 => rfl
  | fuel + 1 => by
    unfold chunkLoop
    rw [if_neg h]

/-- The well-formedness facts that hold of a chunked period list for the
range `[s, e]`: nonempty, starts at `s`, ends at `e`, each period spans at
most 365 days, consecutive periods are separated by exactly one day, all
periods lie at or after `s`, periods are pairwise disjoint, and together
they cover exactly the day range `[s.ord, e.ord]`. -/
structure ChunksOK (s e : Date) (ps : List (Date × Date)) : Prop where
  nonempty : ps ≠ []
  headStart : ∀ p, ps.head? = some p → p.1 = s
  lastEnd : ∀ p, ps.getLast? = some p → p.2 = e
  spans : ∀ p ∈ ps, p.1.ord ≤ p.2.ord ∧ p.2.ord - p.1.ord ≤ 365
  contig : List.Chain' (fun p q => q.1 = Date.succ p.2 ∧ q.1.ord = p.2.ord + 1) ps
  startsLB : ∀ p ∈ ps, s.ord ≤ p.1.ord
  disj : ps.Pairwise (fun p q => p.2.ord < q.1.ord)
  covers : ∀ n : Nat, (s.ord ≤ n ∧ n ≤ e.ord) ↔ ∃ p ∈ ps, p.1.ord ≤ n ∧ n ≤ p.2.ord

lemma chunksOK_single {s e : Date} (hle : s.ord ≤ e.ord)
    (hspan : e.ord - s.ord ≤ 365) : ChunksOK s e [(s, e)] := by
  refine ⟨by simp, ?_, ?_, ?_, by simp, ?_, by simp, ?_⟩
  · intro p hp
    simp at hp
    subst hp
    rfl
  · intro p hp
    simp at hp
    subst hp
    rfl
  · intro p hp
    simp at hp
    subst hp
    exact ⟨hle, hspan⟩
  · intro p hp
    simp at hp
    subst hp
    exact le_refl _
  · intro n
    simp

lemma chunkLoop_ok {m : Nat} (hm1 : 1 ≤ m) (hm2 : m ≤ 12) {e : Date}
    (he : e.Valid) (hed : e.d = daysInMonth e.y e.m) :
    ∀ fuel y, 1 ≤ y → Date.ord ⟨y, m, 1⟩ < e.ord →
      e.ord - Date.ord ⟨y, m, 1⟩ ≤ fuel →
      ChunksOK ⟨y, m, 1⟩ e (chunkLoop e fuel ⟨y, m, 1⟩) := by
  intro fuel
  induction fuel with
  | zero =>
    intro y hy hlt hfuel
    omega
  | succ f ih =>
    intro y hy hlt hfuel
    obtain ⟨hpv, hpd, hpord, hpsucc⟩ := @pred_day1_spec y m hm1 hm2 hy
    have hyear := @ord_day1_succ_year y m hm1 hm2 hy
    have hbit1 := leapBit_le (y + 1)
    have hbit0 := leapBit_le y
    have hstep : chunkLoop e (f + 1) ⟨y, m, 1⟩ =
        (if (⟨y, m, 1⟩ : Date).ord < e.ord then
          ((⟨y, m, 1⟩ : Date),
            if e.ord < (Date.pred (addYears1 ⟨y, m, 1⟩)).ord then e
            else Date.pred (addYears1 ⟨y, m, 1⟩)) ::
          chunkLoop e f
            (Date.succ (if e.ord < (Date.pred (addYears1 ⟨y, m, 1⟩)).ord then e
              else Date.pred (addYears1 ⟨y, m, 1⟩)))
        else []) := rfl
    rw [hstep, if_pos hlt, addYears1_day1]
    set s : Date := ⟨y, m, 1⟩ with hs
    set ce0 : Date := Date.pred ⟨y + 1, m, 1⟩ with hce0
    -- ce0.ord = s.ord + 364 + leap bit
    have hord0 : s.ord + 364 ≤ ce0.ord ∧ ce0.ord ≤ s.ord + 365 := by
      constructor <;> [skip; skip] <;> split at hyear <;> omega
    by_cases hclamp : e.ord < ce0.ord
    · -- final period, clamped to e
      rw [if_pos hclamp]
      have hrest : chunkLoop e f (Date.succ e) = [] := by
        apply chunkLoop_nil
        rw [ord_succ_lastday he hed]
        omega
      rw [hrest]
      exact chunksOK_single (by omega) (by omega)
    · rw [if_neg hclamp]
      push_neg at hclamp
      by_cases heq : ce0.ord = e.ord
      · -- last period ends exactly at e
        have hce0e : ce0 = e := ord_inj hpv he heq
        have hrest : chunkLoop e f (Date.succ ce0) = [] := by
          apply chunkLoop_nil
          rw [hce0e, ord_succ_lastday he hed]
          omega
        rw [hrest, hce0e]
        exact chunksOK_single (by omega) (by omega)
      · -- recursive case: continue from the day after ce0
        have hlt' : ce0.ord < e.ord := by omega
        have hsucc_ord : Date.ord ⟨y + 1, m, 1⟩ = ce0.ord + 1 := by omega
        have hsv : (⟨y + 1, m, 1⟩ : Date).Valid := by
          unfold Date.Valid
          dsimp only
          have := daysInMonth_ge (y + 1) m
          omega
        have hlt'' : Date.ord ⟨y + 1, m, 1⟩ < e.ord := by
          rcases Nat.lt_or_ge (Date.ord ⟨y + 1, m, 1⟩) e.ord with h | h
          · exact h
          · exfalso
            have heq2 : Date.ord ⟨y + 1, m, 1⟩ = e.ord := by omega
            have := ord_inj hsv he heq2
            have hd1 : e.d = 1 := by rw [← this]
            have := daysInMonth_ge e.y e.m
            omega
        have hrec := ih (y + 1) (by omega) hlt'' (by omega)
        rw [hpsucc]
        set rest := chunkLoop e f ⟨y + 1, m, 1⟩ with hrest
        -- assemble
        refine ⟨by simp, ?_, ?_, ?_, ?_, ?_, ?_, ?_⟩
        · intro p hp
          simp at hp
          subst hp
          rfl
        · intro p hp
          rcases hr : rest with _ | ⟨r, t⟩
          · exact absurd hr hrec.nonempty
          · rw [hr] at hp
            rw [List.getLast?_cons_cons] at hp
            apply hrec.lastEnd
            rw [hr]
            exact hp
        · intro p hp
          rcases List.mem_cons.mp hp with h | h
          · subst h
            dsimp only
            omega
          · exact hrec.spans p h
        · rw [List.chain'_cons']
          refine ⟨?_, hrec.contig⟩
          intro q hq
          have hq1 := hrec.headStart q hq
          dsimp only
          rw [hq1]
          exact ⟨hpsucc.symm, by omega⟩
        · intro p hp
          rcases List.mem_cons.mp hp with h | h
          · subst h
            dsimp only
            exact le_refl _
          · have := hrec.startsLB p h
            omega
        · rw [List.pairwise_cons]
          refine ⟨?_, hrec.disj⟩
          intro q hq
          have := hrec.startsLB q hq
          dsimp only
          omega
        · intro n
          constructor
          · rintro ⟨hn1, hn2⟩
            by_cases hn : n ≤ ce0.ord
            · exact ⟨(s, ce0), List.mem_cons_self _ _, hn1, hn⟩
            · have hn' : Date.ord ⟨y + 1, m, 1⟩ ≤ n := by omega
              obtain ⟨p, hp, hp1, hp2⟩ := (hrec.covers n).mp ⟨hn', hn2⟩
              exact ⟨p, List.mem_cons_of_mem _ hp, hp1, hp2⟩
          · rintro ⟨p, hp, hp1, hp2⟩
            rcases List.mem_cons.mp hp with h | h
            · subst h
              dsimp only at hp1 hp2
              omega
            · have h1 := hrec.startsLB p h
              have h2 := (hrec.covers n).mpr ⟨p, h, hp1, hp2⟩
              exact ⟨by omega, h2.2⟩

lemma calculate_multi_ok {sm sy em ey : Nat}
    (hsm1 : 1 ≤ sm) (hsm2 : sm ≤ 12) (hem1 : 1 ≤ em) (hem2 : em ≤ 12)
    (hsy : 1 ≤ sy) (hey : 1 ≤ ey)
    (hspan : 365 < (Date.ord ⟨ey, em, daysInMonth ey em⟩ : Int)
      - (Date.ord ⟨sy, sm, 1⟩ : Int)) :
    ChunksOK ⟨sy, sm, 1⟩ ⟨ey, em, daysInMonth ey em⟩
      (calculate_date_periods sm sy em ey) := by
  simp only [calculate_date_periods]
  rw [lastDayCalc_eq hem1 hem2 hey]
  rw [if_neg (by omega)]
  have hev : (⟨ey, em, daysInMonth ey em⟩ : Date).Valid := by
    unfold Date.Valid
    dsimp only
    have := daysInMonth_ge ey em
    omega
  exact chunkLoop_ok hsm1 hsm2 hev rfl _ sy hsy (by omega) (le_refl _)

/-- C1: For every valid input range (startMonth, startYear, endMonth,
endYear) whose span exceeds 365 days, `calculate_date_periods` returns a
sequence of periods that are contiguous (each period's start is the previous
period's end plus one day), each spanning at most 365 days, pairwise
non-overlapping, and whose union is exactly the inclusive day range from the
first day of the start month to the last day of the end month; in
particular for start = 2024-01-01 and end = 2025-06-30 it returns exactly
(2024-01-01, 2024-12-31) and (2025-01-01, 2025-06-30). -/
theorem C1_period_chunker {sm sy em ey : Nat}
    (hsm1 : 1 ≤ sm) (hsm2 : sm ≤ 12) (hem1 : 1 ≤ em) (hem2 : em ≤ 12)
    (hsy : 1 ≤ sy) (hey : 1 ≤ ey)
    (hspan : 365 < (Date.ord ⟨ey, em, daysInMonth ey em⟩ : Int)
      - (Date.ord ⟨sy, sm, 1⟩ : Int)) :
    List.Chain' (fun p q => q.1 = Date.succ p.2)
      (calculate_date_periods sm sy em ey) ∧
    (∀ p ∈ calculate_date_periods sm sy em ey,
      p.1.ord ≤ p.2.ord ∧ p.2.ord - p.1.ord ≤ 365) ∧
    (calculate_date_periods sm sy em ey).Pairwise
      (fun p q => p.2.ord < q.1.ord) ∧
    (∀ n : Nat,
      (Date.ord ⟨sy, sm, 1⟩ ≤ n ∧ n ≤ Date.ord ⟨ey, em, daysInMonth ey em⟩) ↔
        ∃ p ∈ calculate_date_periods sm sy em ey,
          p.1.ord ≤ n ∧ n ≤ p.2.ord) ∧
    calculate_date_periods 1 2024 6 2025 =
      [(⟨2024, 1, 1⟩, ⟨2024, 12, 31⟩), (⟨2025, 1, 1⟩, ⟨2025, 6, 30⟩)] := by
  have hok := calculate_multi_ok hsm1 hsm2 hem1 hem2 hsy hey hspan
  refine ⟨hok.contig.imp (fun _ _ hpq => hpq.1), hok.spans, hok.disj, hok.covers, ?_⟩
  decide

/-- Witness for C1 at the concrete input from the spec. -/
theorem C1_period_chunker_witness :
    calculate_date_periods 1 2024 6 2025 =
      [(⟨2024, 1, 1⟩, ⟨2024, 12, 31⟩), (⟨2025, 1, 1⟩, ⟨2025, 6, 30⟩)] :=
  (@C1_period_chunker 1 2024 6 2025
    (by decide) (by decide) (by decide) (by decide) (by decide) (by decide)
    (by decide)).2.2.2.2

/-- C7 counterexample: for an input whose computed start date (2025-05-01)
is after its computed end date (2014-07-31), `calculate_date_periods`
raises no error and returns a (one-element) period list, contradicting the
claim that it fails with a ConfigurationError and never returns a list. -/
theorem C7_counterexample :
    calculate_date_periods 5 2025 7 2014 = [(⟨2025, 5, 1⟩, ⟨2014, 7, 31⟩)] := by
  decide

/-- C7 amended: when the computed start date is after the computed end
date, the Period Chunker performs no validation and fails with nothing: it
returns the single inverted (empty-range) period `[(start, end)]`. -/
theorem C7_amended {sm sy em ey : Nat}
    (hem1 : 1 ≤ em) (hem2 : em ≤ 12) (hey : 1 ≤ ey)
    (hlt : Date.ord ⟨ey, em, daysInMonth ey em⟩ < Date.ord ⟨sy, sm, 1⟩) :
    calculate_date_periods sm sy em ey =
      [(⟨sy, sm, 1⟩, ⟨ey, em, daysInMonth ey em⟩)] := by
  simp only [calculate_date_periods]
  rw [lastDayCalc_eq hem1 hem2 hey]
  rw [if_pos (by omega)]

/-- Witness for the amended C7 at a concrete inverted range. -/
theorem C7_amended_witness :
    Date.ord ⟨2014, 7, daysInMonth 2014 7⟩ < Date.ord ⟨2025, 5, 1⟩ ∧
    calculate_date_periods 5 2025 7 2014 =
      [(⟨2025, 5, 1⟩, ⟨2014, 7, daysInMonth 2014 7⟩)] :=
  ⟨by decide, C7_amended (by decide) (by decide) (by decide) (by decide)⟩

/-! ### Data model of the fetch pipeline

`RefEntry` is one row of the `duid_lookup` dictionary built by
`load_nem_reference_data` (which always populates every field, using the
string sentinel "N/A" for anything missing from the spreadsheet).
`RawResult` is one parsed `result` object of an API batch response
(flattened together with its enclosing facility block's fields).
`FacMeta` is one `enhanced_metadata` dictionary.  Measurement values are
modelled as rationals. -/

structure RefEntry where
  region : String
  facility : String
  owner : String
  numUnits : String
  nameplate : String
  storage : String
  closureYear : String
  fueltech : String
deriving DecidableEq

structure FacMeta where
  duid : String
  name : String
  facility : String
  region : String
  fueltech : String
  owner : String
  numUnits : String
  nameplate : String
  storage : String
  closureYear : String
deriving DecidableEq

structure RawResult where
  duid : String
  name : String
  facilityCode : String
  networkRegion : String
  fueltechId : String
  data : List (String × Option ℚ)
deriving DecidableEq

structure MetricRecord where
  timestamp : String
  key : String
  value : ℚ
  period : Nat
deriving DecidableEq

/-- Python dict assignment `d[k] = v` on an association list. -/
def dinsert {β : Type} : List (String × β) → String → β → List (String × β)
  | [], k, v => [(k, v)]
  | (k', v') :: t, k, v =>
      if k' = k then (k, v) :: t else (k', v') :: dinsert t k v

lemma lookup_dinsert {β : Type} (l : List (String × β)) (k k' : String) (v : β) :
    List.lookup k' (dinsert l k v) =
      if k' = k then some v else List.lookup k' l := by
  induction l with
  | nil =>
    by_cases h : k' = k
    · subst h
      simp [dinsert, List.lookup]
    · have hb : (k' == k) = false := beq_false_of_ne h
      simp [dinsert, List.lookup, hb, h]
  | cons hd t ih =>
    obtain ⟨k0, v0⟩ := hd
    by_cases h0 : k0 = k
    · subst h0
      by_cases h : k' = k0
      · subst h
        simp [dinsert, List.lookup]
      · have hb : (k' == k0) = false := beq_false_of_ne h
        simp [dinsert, List.lookup, hb, h]
    · rw [dinsert, if_neg h0]
      by_cases h : k' = k0
      · subst h
        rw [if_neg h0]
        simp [List.lookup]
      · have hb : (k' == k0) = false := beq_false_of_ne h
        simp [List.lookup, hb, h, ih]

/-- The `enhanced_metadata` construction inside `fetch_data_for_period`:
if the DUID matches the NEM reference data, all descriptive and enrichment
fields are taken from the reference entry (which always carries every key,
so no `dict.get` default ever fires); otherwise API fields are used and
every enrichment field gets the 'N/A' sentinel. -/
def mergeMetadata (duid name facilityCode networkRegion fueltechId : String)
    (duid_lookup : List (String × RefEntry)) : FacMeta :=
  match List.lookup duid duid_lookup with
  | some nem =>
      ⟨duid, name, nem.facility, nem.region, nem.fueltech,
        nem.owner, nem.numUnits, nem.nameplate, nem.storage, nem.closureYear⟩
  | none =>
      ⟨duid, name, facilityCode, networkRegion, fueltechId,
        "N/A", "N/A", "N/A", "N/A", "N/A"⟩

/-- `should_include_duid(duid, metadata, duid_lookup, region_filter)`. -/
def should_include_duid (duid : String) (metadata : List (String × FacMeta))
    (duid_lookup : List (String × RefEntry)) (region_filter : List String) :
    Bool :=
  if region_filter.isEmpty then true
  else
    let region0 : Option String :=
      match List.lookup duid duid_lookup with
      | some entry => some entry.region
      | none => none
    let region1 : Option String :=
      if region0 = some "N/A" then
        match List.lookup duid metadata with
        | some meta => some meta.region
        | none => region0
      else region0
    match region1 with
    | some r => region_filter.contains r
    | none => false

/-- The retention decision as a pure function of the DUID, the reference
data and the filter (what `should_include_duid` amounts to at its call
site, where `metadata[duid]` is always the just-merged entry). -/
def includePure (duid : String) (duid_lookup : List (String × RefEntry))
    (region_filter : List String) : Bool :=
  region_filter.isEmpty ||
    (match List.lookup duid duid_lookup with
     | some entry => region_filter.contains entry.region
     | none => false)

/-- `value / 1_000_000 if value is not None else 0`. -/
def processValue : Option ℚ → ℚ
  | none => 0
  | some x => x / 1000000

structure FetchState where
  records : List MetricRecord
  metadata : List (String × FacMeta)
deriving DecidableEq

/-- Processing of one `result` object inside the batch loop of
`fetch_data_for_period`: skip "N/A" DUIDs, record the merged metadata,
then (only if the region filter passes) append one `MetricRecord` per raw
data point. -/
def mergedOf (duid_lookup : List (String × RefEntry)) (r : RawResult) :
    FacMeta :=
  mergeMetadata r.duid r.name r.facilityCode r.networkRegion r.fueltechId
    duid_lookup

def processResult (duid_lookup : List (String × RefEntry))
    (region_filter : List String) (period_num : Nat)
    (st : FetchState) (r : RawResult) : FetchState :=
  if r.duid = "N/A" then st
  else if should_include_duid r.duid
      (dinsert st.metadata r.duid (mergedOf duid_lookup r))
      duid_lookup region_filter then
    { records := st.records ++ r.data.map
        (fun p => ⟨p.1.take 10, r.duid, processValue p.2, period_num⟩),
      metadata := dinsert st.metadata r.duid (mergedOf duid_lookup r) }
  else
    { records := st.records,
      metadata := dinsert st.metadata r.duid (mergedOf duid_lookup r) }

/-- `fetch_data_for_period`, restricted to its pure data processing: the
fold of `processResult` over all parsed results of all successful batches
of one period. -/
def fetch_data_for_period (duid_lookup : List (String × RefEntry))
    (region_filter : List String) (period_num : Nat)
    (results : List RawResult) : FetchState :=
  results.foldl (processResult duid_lookup region_filter period_num) ⟨[], []⟩

/-- At its call site the `metadata` dict always holds the just-merged entry
for `duid`, which makes the filter decision a pure function of the
reference data and the filter list: the API-reported region is never
consulted (the `region == 'N/A'` fallback re-reads the merged entry, whose
region is the reference region itself). -/
lemma should_include_merged {duid name fc nr ft : String}
    {duid_lookup : List (String × RefEntry)} {region_filter : List String}
    {metadata : List (String × FacMeta)}
    (hmd : List.lookup duid metadata =
      some (mergeMetadata duid name fc nr ft duid_lookup)) :
    should_include_duid duid metadata duid_lookup region_filter =
      includePure duid duid_lookup region_filter := by
  unfold should_include_duid includePure
  by_cases hemp : region_filter.isEmpty
  · simp [hemp]
  · have hemp' : region_filter.isEmpty = false := by
      simpa using hemp
    rw [if_neg hemp, hemp']
    rw [Bool.false_or]
    rcases hlk : List.lookup duid duid_lookup with _ | entry
    · simp only [mergeMetadata, hlk] at hmd
      simp
    · simp only [mergeMetadata, hlk] at hmd
      simp only
      by_cases hna : entry.region = "N/A"
      · rw [if_pos (by rw [hna]), hmd]
      · rw [if_neg (by simpa using hna)]

lemma processResult_records_eq (dl : List (String × RefEntry))
    (rf : List String) (pn : Nat) (st : FetchState) (r : RawResult) :
    (processResult dl rf pn st r).records =
      if r.duid ≠ "N/A" ∧ includePure r.duid dl rf = true then
        st.records ++ r.data.map
          (fun p => ⟨p.1.take 10, r.duid, processValue p.2, pn⟩)
      else st.records := by
  unfold processResult
  by_cases hna : r.duid = "N/A"
  · rw [if_pos hna, if_neg (by simp [hna])]
  · rw [if_neg hna]
    have hmd : List.lookup r.duid
        (dinsert st.metadata r.duid (mergedOf dl r)) =
        some (mergeMetadata r.duid r.name r.facilityCode r.networkRegion
          r.fueltechId dl) := by
      rw [lookup_dinsert, if_pos rfl]
      rfl
    rw [should_include_merged hmd]
    by_cases hinc : includePure r.duid dl rf = true
    · rw [if_pos hinc, if_pos ⟨hna, hinc⟩]
    · rw [if_neg hinc, if_neg (by simp [hinc])]

lemma processResult_metadata_eq (dl : List (String × RefEntry))
    (rf : List String) (pn : Nat) (st : FetchState) (r : RawResult) :
    (processResult dl rf pn st r).metadata =
      if r.duid = "N/A" then st.metadata
      else dinsert st.metadata r.duid (mergedOf dl r) := by
  unfold processResult
  by_cases hna : r.duid = "N/A"
  · rw [if_pos hna, if_pos hna]
  · rw [if_neg hna, if_neg hna]
    by_cases hinc : should_include_duid r.duid
        (dinsert st.metadata r.duid (mergedOf dl r)) dl rf
    · rw [if_pos hinc]
    · rw [if_neg hinc]

/-- Records are only ever appended by the batch loop. -/
lemma foldl_records_mono (dl : List (String × RefEntry)) (rf : List String)
    (pn : Nat) :
    ∀ (results : List RawResult) (init : FetchState) (rec : MetricRecord),
      rec ∈ init.records →
      rec ∈ (results.foldl (processResult dl rf pn) init).records := by
  intro results
  induction results with
  | nil => intro init rec h; simpa using h
  | cons r rs ih =>
    intro init rec h
    rw [List.foldl_cons]
    apply ih
    rw [processResult_records_eq]
    split
    · exact List.mem_append_left _ h
    · exact h

/-- Every accumulated record has a non-"N/A" key and passed the (pure)
region-filter decision. -/
lemma foldl_records_ok (dl : List (String × RefEntry)) (rf : List String)
    (pn : Nat) :
    ∀ (results : List RawResult) (init : FetchState),
      (∀ rec ∈ init.records,
        rec.key ≠ "N/A" ∧ includePure rec.key dl rf = true ∧ rec.period = pn) →
      ∀ rec ∈ (results.foldl (processResult dl rf pn) init).records,
        rec.key ≠ "N/A" ∧ includePure rec.key dl rf = true ∧ rec.period = pn := by
  intro results
  induction results with
  | nil => intro init h; simpa using h
  | cons r rs ih =>
    intro init h
    rw [List.foldl_cons]
    apply ih
    intro rec hrec
    rw [processResult_records_eq] at hrec
    split at hrec
    · rename_i hcond
      rcases List.mem_append.mp hrec with hmem | hmem
      · exact h rec hmem
      · obtain ⟨p, _, hpe⟩ := List.mem_map.mp hmem
        rw [← hpe]
        exact ⟨hcond.1, hcond.2, rfl⟩
    · exact h rec hrec

/-- Metadata entries are never removed (lookups stay resolvable). -/
lemma foldl_metadata_mono (dl : List (String × RefEntry)) (rf : List String)
    (pn : Nat) :
    ∀ (results : List RawResult) (init : FetchState) (k : String),
      (List.lookup k init.metadata).isSome →
      (List.lookup k (results.foldl (processResult dl rf pn) init).metadata).isSome := by
  intro results
  induction results with
  | nil => intro init k h; simpa using h
  | cons r rs ih =>
    intro init k h
    rw [List.foldl_cons]
    apply ih
    rw [processResult_metadata_eq]
    split
    · exact h
    · rw [lookup_dinsert]
      split
      · simp
      · exact h

/-- Every record key has a metadata entry in the final state. -/
lemma foldl_records_have_md (dl : List (String × RefEntry)) (rf : List String)
    (pn : Nat) :
    ∀ (results : List RawResult) (init : FetchState),
      (∀ rec ∈ init.records, (List.lookup rec.key init.metadata).isSome) →
      ∀ rec ∈ (results.foldl (processResult dl rf pn) init).records,
        (List.lookup rec.key
          (results.foldl (processResult dl rf pn) init).metadata).isSome := by
  intro results
  induction results with
  | nil => intro init h; simpa using h
  | cons r rs ih =>
    intro init h
    rw [List.foldl_cons]
    apply ih
    intro rec hrec
    rw [processResult_records_eq] at hrec
    rw [processResult_metadata_eq]
    split at hrec
    · rename_i hcond
      rw [if_neg hcond.1]
      rcases List.mem_append.mp hrec with hmem | hmem
      · rw [lookup_dinsert]
        split
        · simp
        · exact h rec hmem
      · obtain ⟨p, _, hpe⟩ := List.mem_map.mp hmem
        rw [← hpe]
        rw [lookup_dinsert]
        simp
    · split
      · exact h rec hrec
      · rw [lookup_dinsert]
        split
        · simp
        · exact h rec hrec

/-- Every metadata entry of the final state is the merged metadata of one
of the processed results (or was already in the initial state). -/
lemma foldl_metadata_from (dl : List (String × RefEntry)) (rf : List String)
    (pn : Nat) :
    ∀ (results : List RawResult) (init : FetchState) (k : String) (meta : FacMeta),
      List.lookup k (results.foldl (processResult dl rf pn) init).metadata =
        some meta →
      List.lookup k init.metadata = some meta ∨
        ∃ r ∈ results, r.duid = k ∧ r.duid ≠ "N/A" ∧ meta = mergedOf dl r := by
  intro results
  induction results with
  | nil => intro init k meta h; exact Or.inl (by simpa using h)
  | cons r rs ih =>
    intro init k meta h
    rw [List.foldl_cons] at h
    rcases ih _ k meta h with hbase | ⟨r', hr', hk, hna, hm⟩
    · rw [processResult_metadata_eq] at hbase
      split at hbase
      · exact Or.inl hbase
      · rename_i hna
        rw [lookup_dinsert] at hbase
        split at hbase
        · rename_i hkeq
          refine Or.inr ⟨r, List.mem_cons_self _ _, ?_, hna, ?_⟩
          · rw [hkeq]
          · exact (Option.some.injEq _ _ ▸ hbase).symm
        · exact Or.inl hbase
    · exact Or.inr ⟨r', List.mem_cons_of_mem _ hr', hk, hna, hm⟩

/-- Every data point of a retained result yields exactly the record built
from it (timestamp truncated to the date, value put through
`processValue`, tagged with the period number). -/
lemma foldl_record_mem (dl : List (String × RefEntry)) (rf : List String)
    (pn : Nat) :
    ∀ (results : List RawResult) (init : FetchState) (r : RawResult),
      r ∈ results → r.duid ≠ "N/A" → includePure r.duid dl rf = true →
      ∀ p ∈ r.data,
        (⟨p.1.take 10, r.duid, processValue p.2, pn⟩ : MetricRecord) ∈
          (results.foldl (processResult dl rf pn) init).records := by
  intro results
  induction results with
  | nil => intro init r hr; exact absurd hr (List.not_mem_nil r)
  | cons r0 rs ih =>
    intro init r hr hna hinc p hp
    rw [List.foldl_cons]
    rcases List.mem_cons.mp hr with heq | hmem
    · subst heq
      apply foldl_records_mono
      rw [processResult_records_eq, if_pos ⟨hna, hinc⟩]
      exact List.mem_append_right _ (List.mem_map_of_mem _ hp)
    · exact ih _ r hmem hna hinc p hp

/-- Replace every null measurement of a result by an explicit `0`. -/
def forceNulls (r : RawResult) : RawResult :=
  { r with data := r.data.map (fun p => (p.1, some (p.2.getD 0))) }

lemma processValue_forceNull (v : Option ℚ) :
    processValue (some (v.getD 0)) = processValue v := by
  cases v with
  | none =>
    show (0 : ℚ) / 1000000 = 0
    norm_num
  | some x => rfl

lemma processResult_forceNulls (dl : List (String × RefEntry))
    (rf : List String) (pn : Nat) (st : FetchState) (r : RawResult) :
    processResult dl rf pn st (forceNulls r) = processResult dl rf pn st r := by
  unfold processResult forceNulls mergedOf
  dsimp only
  rw [List.map_map]
  have hmap : r.data.map
      ((fun p => (⟨p.1.take 10, r.duid, processValue p.2, pn⟩ : MetricRecord)) ∘
        (fun p => (p.1, some (p.2.getD 0)))) =
      r.data.map (fun p => ⟨p.1.take 10, r.duid, processValue p.2, pn⟩) := by
    apply List.map_congr_left
    intro p _
    show (⟨p.1.take 10, r.duid, processValue (some (p.2.getD 0)), pn⟩ :
      MetricRecord) = ⟨p.1.take 10, r.duid, processValue p.2, pn⟩
    rw [processValue_forceNull]
  rw [hmap]

lemma fetch_forceNulls (dl : List (String × RefEntry)) (rf : List String)
    (pn : Nat) :
    ∀ (results : List RawResult) (init : FetchState),
      (results.map forceNulls).foldl (processResult dl rf pn) init =
        results.foldl (processResult dl rf pn) init := by
  intro results
  induction results with
  | nil => intro init; rfl
  | cons r rs ih =>
    intro init
    rw [List.map_cons, List.foldl_cons, List.foldl_cons,
        processResult_forceNulls, ih]

/-- C10: for every raw API data point whose value is null, the fetch step
still appends a MetricRecord for that timestamp and FacilityKey with value
exactly 0 (so null measurements are indistinguishable from true-zero
measurements: replacing nulls by explicit zeros leaves the fetch output
unchanged), and every non-null value is stored divided by 1,000,000. -/
theorem C10_null_measurements (dl : List (String × RefEntry))
    (rf : List String) (pn : Nat) (results : List RawResult)
    (r : RawResult) (t : String) (v : Option ℚ)
    (hr : r ∈ results) (hna : r.duid ≠ "N/A")
    (hinc : includePure r.duid dl rf = true) (hp : (t, v) ∈ r.data) :
    (⟨t.take 10, r.duid, processValue v, pn⟩ : MetricRecord) ∈
      (fetch_data_for_period dl rf pn results).records ∧
    processValue none = 0 ∧
    (∀ x : ℚ, processValue (some x) = x / 1000000) ∧
    fetch_data_for_period dl rf pn (results.map forceNulls) =
      fetch_data_for_period dl rf pn results := by
  refine ⟨?_, rfl, fun x => rfl, fetch_forceNulls dl rf pn results _⟩
  exact foldl_record_mem dl rf pn results ⟨[], []⟩ r hr hna hinc (t, v) hp

/-- Witness for C10: a null data point of an unfiltered run yields a
record with value 0. -/
theorem C10_null_measurements_witness :
    (⟨"2024-01-05T00:00:00".take 10, "U1", processValue none, 1⟩ :
        MetricRecord) ∈
      (fetch_data_for_period [] [] 1
        [⟨"U1", "Unit 1", "F1", "NSW1", "coal",
          [("2024-01-05T00:00:00", none)]⟩]).records :=
  (C10_null_measurements [] [] 1
    [⟨"U1", "Unit 1", "F1", "NSW1", "coal", [("2024-01-05T00:00:00", none)]⟩]
    ⟨"U1", "Unit 1", "F1", "NSW1", "coal", [("2024-01-05T00:00:00", none)]⟩
    "2024-01-05T00:00:00" none
    (by decide) (by decide) (by decide) (by decide)).1

/-- C4 counterexample: with an allow-list configured, a FacilityKey absent
from the ReferenceDataset is rejected even though its merged metadata's
Region ("NSW1", taken from the API report) is a member of the allow-list,
contradicting the claimed if-and-only-if characterization. -/
theorem C4_counterexample :
    should_include_duid "X"
        [("X", mergeMetadata "X" "X" "F" "NSW1" "coal" [])] [] ["NSW1"] =
      false ∧
    (mergeMetadata "X" "X" "F" "NSW1" "coal" []).region = "NSW1" ∧
    ("NSW1" : String) ∈ ["NSW1"] := by
  decide

/-- C4 amended: a record is retained iff no allow-list is configured, or
its FacilityKey appears in the ReferenceDataset and the merged metadata's
Region is a member of the allow-list.  FacilityKeys absent from the
ReferenceDataset are never retained when an allow-list is configured. -/
theorem C4_region_filter {duid name fc nr ft : String}
    {dl : List (String × RefEntry)} {rf : List String}
    {md : List (String × FacMeta)}
    (hmd : List.lookup duid md =
      some (mergeMetadata duid name fc nr ft dl)) :
    should_include_duid duid md dl rf = true ↔
      rf = [] ∨ ((List.lookup duid dl).isSome ∧
        (mergeMetadata duid name fc nr ft dl).region ∈ rf) := by
  rw [should_include_merged hmd]
  unfold includePure
  rcases hlk : List.lookup duid dl with _ | entry
  · simp [mergeMetadata, hlk, List.isEmpty_iff]
  · simp [mergeMetadata, hlk, List.isEmpty_iff, List.elem_iff]

/-- Witness for the amended C4 at a concrete reference-matched key. -/
theorem C4_region_filter_witness :
    (List.lookup "Y"
        [("Y", mergeMetadata "Y" "Y" "F" "QLD1" "gas"
          [("Y", ⟨"NSW1", "FR", "O", "1", "10", "N/A", "2030", "gas"⟩)])] =
      some (mergeMetadata "Y" "Y" "F" "QLD1" "gas"
        [("Y", ⟨"NSW1", "FR", "O", "1", "10", "N/A", "2030", "gas"⟩)])) ∧
    (should_include_duid "Y"
        [("Y", mergeMetadata "Y" "Y" "F" "QLD1" "gas"
          [("Y", ⟨"NSW1", "FR", "O", "1", "10", "N/A", "2030", "gas"⟩)])]
        [("Y", ⟨"NSW1", "FR", "O", "1", "10", "N/A", "2030", "gas"⟩)]
        ["NSW1"] = true ↔
      (["NSW1"] : List String) = [] ∨
        ((List.lookup "Y"
          [("Y", (⟨"NSW1", "FR", "O", "1", "10", "N/A", "2030", "gas"⟩ : RefEntry))]).isSome ∧
        (mergeMetadata "Y" "Y" "F" "QLD1" "gas"
          [("Y", ⟨"NSW1", "FR", "O", "1", "10", "N/A", "2030", "gas"⟩)]).region ∈
          (["NSW1"] : List String))) :=
  ⟨by decide, C4_region_filter (by decide)⟩

/-- C6 counterexample: a reference entry whose Region field is itself the
unresolved "N/A" sentinel is merged verbatim: the merged Region stays
"N/A" instead of falling back to the API-reported value "NSW1" as the
claim requires. -/
theorem C6_counterexample :
    (mergeMetadata "X" "X" "FC" "NSW1" "coal"
        [("X", ⟨"N/A", "FR", "O", "1", "10", "N/A", "N/A", "coal"⟩)]).region =
      "N/A" ∧ ("N/A" : String) ≠ "NSW1" := by
  decide

/-- C6 amended: for a key in the ReferenceDataset, all descriptive and
enrichment fields are taken verbatim from the reference entry (an
unresolved "N/A" reference field stays "N/A"; there is no per-field
fallback to the API value); for a key absent from the ReferenceDataset,
the API-reported descriptive fields are used and every enrichment field
gets the "N/A" sentinel.  The NSW1/UNKNOWN example of the spec holds, and
every metadata entry produced by a fetch is such a merge of one of its
results. -/
theorem C6_metadata_merger (duid name fc nr ft : String)
    (dl : List (String × RefEntry)) :
    (∀ entry, List.lookup duid dl = some entry →
      mergeMetadata duid name fc nr ft dl =
        ⟨duid, name, entry.facility, entry.region, entry.fueltech,
          entry.owner, entry.numUnits, entry.nameplate, entry.storage,
          entry.closureYear⟩) ∧
    (List.lookup duid dl = none →
      mergeMetadata duid name fc nr ft dl =
        ⟨duid, name, fc, nr, ft, "N/A", "N/A", "N/A", "N/A", "N/A"⟩) ∧
    (mergeMetadata "X" "X" "FC" "UNKNOWN" "coal"
        [("X", ⟨"NSW1", "FR", "O", "1", "10", "N/A", "N/A", "coal"⟩)]).region =
      "NSW1" ∧
    (∀ (rf : List String) (pn : Nat) (results : List RawResult)
        (k : String) (meta : FacMeta),
      List.lookup k (fetch_data_for_period dl rf pn results).metadata =
        some meta →
      ∃ r ∈ results, r.duid = k ∧ r.duid ≠ "N/A" ∧ meta = mergedOf dl r) := by
  refine ⟨?_, ?_, by decide, ?_⟩
  · intro entry hlk
    unfold mergeMetadata
    rw [hlk]
  · intro hlk
    unfold mergeMetadata
    rw [hlk]
  · intro rf pn results k meta h
    rcases foldl_metadata_from dl rf pn results ⟨[], []⟩ k meta h with hbase | hres
    · simp [List.lookup] at hbase
    · exact hres

/-- Witness for the amended C6 at the spec's NSW1/UNKNOWN example. -/
theorem C6_metadata_merger_witness :
    mergeMetadata "X" "X" "FC" "UNKNOWN" "coal"
        [("X", ⟨"NSW1", "FR", "O", "1", "10", "N/A", "N/A", "coal"⟩)] =
      ⟨"X", "X", "FR", "NSW1", "coal", "O", "1", "10", "N/A", "N/A"⟩ :=
  (C6_metadata_merger "X" "X" "FC" "UNKNOWN" "coal"
    [("X", ⟨"NSW1", "FR", "O", "1", "10", "N/A", "N/A", "coal"⟩)]).1
    ⟨"NSW1", "FR", "O", "1", "10", "N/A", "N/A", "coal"⟩ (by decide)

/-! ### Lifecycle Categorizer (`categorize_duids`) -/

def keysOf (md : List (String × FacMeta)) : List String := md.map Prod.fst

/-- `categorize_duids(all_periods_metadata)`: reference DUIDs are the keys
of the highest-numbered period's metadata; decommissioned DUIDs are keys of
any lower-numbered period that are absent from the latest period. -/
def categorize_duids (apm : List (Nat × List (String × FacMeta))) :
    List String × List String × Nat :=
  let latest := (apm.map Prod.fst).foldl Nat.max 0
  let reference :=
    match List.lookup latest apm with
    | some md => keysOf md
    | none => []
  let historical :=
    ((apm.filter (fun pm => decide (pm.1 < latest))).flatMap
      (fun pm => keysOf pm.2)).dedup
  let decommissioned := historical.filter (fun k => !(reference.contains k))
  (reference, decommissioned, latest)

lemma le_foldl_max : ∀ (l : List Nat) (a : Nat), a ≤ l.foldl Nat.max a := by
  intro l
  induction l with
  | nil => intro a; exact Nat.le_refl _
  | cons b t ih =>
    intro a
    rw [List.foldl_cons]
    exact le_trans (Nat.le_max_left a b) (ih (Nat.max a b))

lemma foldl_max_le : ∀ (l : List Nat) (a x : Nat), x ∈ l →
    x ≤ l.foldl Nat.max a := by
  intro l
  induction l with
  | nil => intro a x h; exact absurd h (List.not_mem_nil x)
  | cons b t ih =>
    intro a x h
    rw [List.foldl_cons]
    rcases List.mem_cons.mp h with h | h
    · subst h
      exact le_trans (Nat.le_max_right a x) (le_foldl_max t (Nat.max a x))
    · exact ih _ x h

lemma lookup_eq_of_mem_nodup {α β : Type} [BEq α] [LawfulBEq α]
    {l : List (α × β)} (hnd : (l.map Prod.fst).Nodup) {a : α} {b : β}
    (hmem : (a, b) ∈ l) : List.lookup a l = some b := by
  induction l with
  | nil => exact absurd hmem (List.not_mem_nil _)
  | cons hd t ih =>
    obtain ⟨k, v⟩ := hd
    rw [List.map_cons, List.nodup_cons] at hnd
    rcases List.mem_cons.mp hmem with h | h
    · have ha : a = k := congrArg Prod.fst h
      have hb : b = v := congrArg Prod.snd h
      subst ha
      subst hb
      simp [List.lookup]
    · have hak : a ≠ k := by
        intro hc
        subst hc
        exact hnd.1 (List.mem_map.mpr ⟨(a, b), h, rfl⟩)
      have hbe : (a == k) = false := beq_false_of_ne hak
      simp [List.lookup, hbe]
      exact ih hnd.2 h

def dummyMeta (k : String) : FacMeta :=
  ⟨k, k, "F", "NSW1", "coal", "N/A", "N/A", "N/A", "N/A", "N/A"⟩

/-- The spec's three-period example: facility A appears only in periods
1-2, facility B in all three. -/
def apm3 : List (Nat × List (String × FacMeta)) :=
  [(1, [("A", dummyMeta "A"), ("B", dummyMeta "B")]),
   (2, [("A", dummyMeta "A"), ("B", dummyMeta "B")]),
   (3, [("B", dummyMeta "B")])]

/-- C2: with more than one period, the Lifecycle Categorizer's ReferenceSet
and DecommissionedSet are disjoint and every FacilityKey observed in any
period's metadata belongs to exactly one of them; on the three-period
example, A is decommissioned (and not reference) and B is reference (and
not decommissioned). -/
theorem C2_lifecycle_categorizer (apm : List (Nat × List (String × FacMeta)))
    (_hmulti : 1 < apm.length) (hnd : (apm.map Prod.fst).Nodup) :
    (∀ k, k ∈ (categorize_duids apm).1 → k ∉ (categorize_duids apm).2.1) ∧
    (∀ p md k, (p, md) ∈ apm → k ∈ keysOf md →
      (k ∈ (categorize_duids apm).1 ∧ k ∉ (categorize_duids apm).2.1) ∨
      (k ∈ (categorize_duids apm).2.1 ∧ k ∉ (categorize_duids apm).1)) ∧
    ("A" ∈ (categorize_duids apm3).2.1 ∧ "A" ∉ (categorize_duids apm3).1 ∧
      "B" ∈ (categorize_duids apm3).1 ∧ "B" ∉ (categorize_duids apm3).2.1) := by
  have hdisj : ∀ k, k ∈ (categorize_duids apm).1 →
      k ∉ (categorize_duids apm).2.1 := by
    intro k href hdec
    unfold categorize_duids at hdec
    simp only [List.mem_filter] at hdec
    have hcont : (categorize_duids apm).1.contains k = true :=
      List.elem_iff.mpr href
    unfold categorize_duids at hcont
    rw [hcont] at hdec
    simp at hdec
  refine ⟨hdisj, ?_, by decide⟩
  intro p md k hpmd hk
  by_cases href : k ∈ (categorize_duids apm).1
  · exact Or.inl ⟨href, hdisj k href⟩
  · refine Or.inr ⟨?_, href⟩
    -- k is observed in period p but not in the latest period's keys
    have hple : p ≤ (apm.map Prod.fst).foldl Nat.max 0 :=
      foldl_max_le _ 0 p (List.mem_map.mpr ⟨(p, md), hpmd, rfl⟩)
    have hpne : p ≠ (apm.map Prod.fst).foldl Nat.max 0 := by
      intro hc
      apply href
      unfold categorize_duids
      simp only
      rw [← hc, lookup_eq_of_mem_nodup hnd hpmd]
      exact hk
    unfold categorize_duids
    simp only [List.mem_filter, List.mem_dedup, List.mem_flatMap]
    refine ⟨⟨(p, md), ?_, hk⟩, ?_⟩
    · exact ⟨hpmd, by simp only [decide_eq_true_eq]; omega⟩
    · simp only [Bool.not_eq_true']
      rw [← Bool.not_eq_true]
      intro hc
      apply href
      unfold categorize_duids
      exact List.elem_iff.mp hc

/-- Witness for C2 on the spec's three-period example. -/
theorem C2_lifecycle_categorizer_witness :
    "A" ∈ (categorize_duids apm3).2.1 ∧ "A" ∉ (categorize_duids apm3).1 ∧
      "B" ∈ (categorize_duids apm3).1 ∧ "B" ∉ (categorize_duids apm3).2.1 :=
  (C2_lifecycle_categorizer apm3 (by decide) (by decide)).2.2

/-! ### Monthly Aggregator

`df.groupby(["month", "key"])["value"].sum().unstack(fill_value=0)`:
records are bucketed by (calendar month of the date, FacilityKey) and
summed; the month is the "YYYY-MM" prefix of the stored "YYYY-MM-DD"
timestamp (`pd.to_datetime(...).dt.to_period("M")`). -/

def monthOf (rec : MetricRecord) : String := rec.timestamp.take 7

/-- Add one value into the running (month, key) sums. -/
def bump (acc : List ((String × String) × ℚ)) (key : String × String)
    (v : ℚ) : List ((String × String) × ℚ) :=
  match acc with
  | [] => [(key, v)]
  | (k, x) :: t => if k = key then (k, x + v) :: t else (k, x) :: bump t key v

/-- The group-by-and-sum accumulation over the record list. -/
def aggregate (records : List MetricRecord) : List ((String × String) × ℚ) :=
  records.foldl (fun acc rec => bump acc (monthOf rec, rec.key) rec.value) []

/-- One cell of the unstacked monthly matrix (missing cells are 0). -/
def cell (records : List MetricRecord) (month key : String) : ℚ :=
  (List.lookup (month, key) (aggregate records)).getD 0

/-- The matrix's month rows (months with at least one record). -/
def monthsOf (records : List MetricRecord) : List String :=
  (records.map monthOf).dedup

/-- The matrix's facility columns (keys with at least one record). -/
def colKeys (records : List MetricRecord) : List String :=
  (records.map MetricRecord.key).dedup

/-- The mathematical value of a cell: the sum of all matching records. -/
def cellSpec (records : List MetricRecord) (m k : String) : ℚ :=
  ((records.filter (fun rec => decide (monthOf rec = m ∧ rec.key = k))).map
    MetricRecord.value).sum

lemma lookup_bump (acc : List ((String × String) × ℚ))
    (key k' : String × String) (v : ℚ) :
    List.lookup k' (bump acc key v) =
      if k' = key then some ((List.lookup key acc).getD 0 + v)
      else List.lookup k' acc := by
  induction acc with
  | nil =>
    by_cases h : k' = key
    · subst h
      simp [bump, List.lookup]
    · have hb : (k' == key) = false := beq_false_of_ne h
      simp [bump, List.lookup, hb, h]
  | cons hd t ih =>
    obtain ⟨k0, x⟩ := hd
    by_cases h0 : k0 = key
    · subst h0
      rw [bump, if_pos rfl]
      by_cases h : k' = k0
      · subst h
        simp [List.lookup]
      · have hb : (k' == k0) = false := beq_false_of_ne h
        simp [List.lookup, hb, h]
    · rw [bump, if_neg h0]
      by_cases h : k' = k0
      · have hk' : k' ≠ key := by
          intro hc
          apply h0
          rw [← h]
          exact hc
        have hb : (k' == k0) = true := beq_iff_eq.mpr h
        simp [List.lookup, hb, hk']
      · have hb : (k' == k0) = false := beq_false_of_ne h
        by_cases hk : k' = key
        · have hb2 : (key == k0) = false := by
            rw [← hk]
            exact hb
          rw [hk] at ih
          rw [if_pos rfl] at ih
          simp [List.lookup, hb2, ih, hk]
        · simp [List.lookup, hb, ih, hk]

set_option maxHeartbeats 1000000 in
lemma lookup_foldl_bump :
    ∀ (records : List MetricRecord)
      (acc : List ((String × String) × ℚ)) (m k : String),
      (List.lookup (m, k)
        (records.foldl (fun acc rec => bump acc (monthOf rec, rec.key) rec.value)
          acc)).getD 0 =
        (List.lookup (m, k) acc).getD 0 + cellSpec records m k := by
  intro records
  induction records with
  | nil =>
    intro acc m k
    simp [cellSpec]
  | cons rec rs ih =>
    intro acc m k
    rw [List.foldl_cons, ih]
    rw [lookup_bump]
    unfold cellSpec
    by_cases h : (m, k) = (monthOf rec, rec.key)
    · rw [Prod.mk.injEq] at h
      obtain ⟨hm, hk⟩ := h
      rw [if_pos (by rw [hm, hk])]
      rw [List.filter_cons_of_pos (by simp [hm, hk])]
      simp only [List.map_cons, List.sum_cons, Option.getD_some]
      rw [← hm, ← hk]
      ring
    · rw [if_neg h]
      rw [List.filter_cons_of_neg (by
        simp only [decide_eq_true_eq]
        intro hc
        exact h (by rw [hc.1, hc.2]))]

lemma cell_eq_cellSpec (records : List MetricRecord) (m k : String) :
    cell records m k = cellSpec records m k := by
  unfold cell aggregate
  rw [lookup_foldl_bump]
  simp [List.lookup]

/-- C3: the Monthly Aggregator is invariant under permutation of the
record list; each (month, facility) cell equals the exact sum of the
matching records' values; every month (facility) with at least one record
appears as a row (column), equally for both permutations; and a
(month, facility) combination with no records has cell value zero. -/
theorem C3_monthly_aggregator (rs rs' : List MetricRecord) (m k : String)
    (hperm : rs.Perm rs') :
    cell rs m k =
      ((rs.filter (fun rec => decide (monthOf rec = m ∧ rec.key = k))).map
        MetricRecord.value).sum ∧
    cell rs m k = cell rs' m k ∧
    (m ∈ monthsOf rs ↔ ∃ rec ∈ rs, monthOf rec = m) ∧
    (k ∈ colKeys rs ↔ ∃ rec ∈ rs, rec.key = k) ∧
    (m ∈ monthsOf rs ↔ m ∈ monthsOf rs') ∧
    (k ∈ colKeys rs ↔ k ∈ colKeys rs') ∧
    ((∀ rec ∈ rs, ¬(monthOf rec = m ∧ rec.key = k)) → cell rs m k = 0) := by
  have hmem : ∀ (l : List MetricRecord) (x : String),
      x ∈ monthsOf l ↔ ∃ rec ∈ l, monthOf rec = x := by
    intro l x
    unfold monthsOf
    rw [List.mem_dedup, List.mem_map]
  have hcol : ∀ (l : List MetricRecord) (x : String),
      x ∈ colKeys l ↔ ∃ rec ∈ l, rec.key = x := by
    intro l x
    unfold colKeys
    rw [List.mem_dedup, List.mem_map]
  refine ⟨cell_eq_cellSpec rs m k, ?_, hmem rs m, hcol rs k, ?_, ?_, ?_⟩
  · rw [cell_eq_cellSpec, cell_eq_cellSpec]
    unfold cellSpec
    exact ((hperm.filter _).map _).sum_eq
  · rw [hmem rs m, hmem rs' m]
    constructor
    · rintro ⟨rec, hr, he⟩; exact ⟨rec, hperm.mem_iff.mp hr, he⟩
    · rintro ⟨rec, hr, he⟩; exact ⟨rec, hperm.mem_iff.mpr hr, he⟩
  · rw [hcol rs k, hcol rs' k]
    constructor
    · rintro ⟨rec, hr, he⟩; exact ⟨rec, hperm.mem_iff.mp hr, he⟩
    · rintro ⟨rec, hr, he⟩; exact ⟨rec, hperm.mem_iff.mpr hr, he⟩
  · intro hnone
    rw [cell_eq_cellSpec]
    unfold cellSpec
    rw [List.filter_eq_nil_iff.mpr (by
      intro rec hr
      simp only [decide_eq_true_eq]
      exact hnone rec hr)]
    rfl

/-- Witness for C3: two records of the same month and key, in both orders,
sum to the same cell value. -/
theorem C3_monthly_aggregator_witness :
    cell [⟨"2024-01-03", "U1", 5, 1⟩, ⟨"2024-01-10", "U1", 7, 1⟩]
        "2024-01" "U1" =
      cell [⟨"2024-01-10", "U1", 7, 1⟩, ⟨"2024-01-03", "U1", 5, 1⟩]
        "2024-01" "U1" :=
  (C3_monthly_aggregator
    [⟨"2024-01-03", "U1", 5, 1⟩, ⟨"2024-01-10", "U1", 7, 1⟩]
    [⟨"2024-01-10", "U1", 7, 1⟩, ⟨"2024-01-03", "U1", 5, 1⟩]
    "2024-01" "U1" (List.Perm.swap _ _ _)).2.1

lemma mem_colKeys {l : List MetricRecord} {x : String} :
    x ∈ colKeys l ↔ ∃ rec ∈ l, rec.key = x := by
  unfold colKeys
  rw [List.mem_dedup, List.mem_map]

lemma mergedOf_duid (dl : List (String × RefEntry)) (r : RawResult) :
    (mergedOf dl r).duid = r.duid := by
  unfold mergedOf mergeMetadata
  split <;> rfl

/-! ### Output Assembler -/

/-- The single-period `valid_columns` filter of the new puller's `main`:
keep a column iff it has a metadata entry whose DUID is not "N/A" (no
reference-data match required). -/
def valid_columns (monthlyCols : List String)
    (metadata : List (String × FacMeta)) : List String :=
  monthlyCols.filter (fun col =>
    match List.lookup col metadata with
    | some meta => meta.duid != "N/A"
    | none => false)

/-- The columns of the single output matrix of a single-period run. -/
def singlePeriodColumns (dl : List (String × RefEntry)) (rf : List String)
    (results : List RawResult) : List String :=
  valid_columns (colKeys (fetch_data_for_period dl rf 1 results).records)
    (fetch_data_for_period dl rf 1 results).metadata

/-- `reference_columns = [col for col in monthly_df.columns if col in
reference_duids]` (the main file's columns in the multi-period case). -/
def reference_columns (monthlyCols refDuids : List String) : List String :=
  monthlyCols.filter (fun c => refDuids.contains c)

/-- The decommissioned output matrix: its columns are exactly the
classified decommissioned DUIDs (`reindex(columns=list(decommissioned_
duids), fill_value=0)`), a column takes the monthly sums when the key has
aggregated data and is all zeros otherwise (both the explicitly appended
zero columns for `missing_decomm_duids` and the reindex fill produce 0). -/
def decommMatrix (records : List MetricRecord) (decomm : List String) :
    List String × (String → String → ℚ) :=
  let monthlyCols := colKeys records
  let existing := monthlyCols.filter (fun c => decomm.contains c)
  (decomm, fun m k => if existing.contains k then cell records m k else 0)

/-- One `fetch_data_for_period` per chunked period, numbered from 1, as in
the multi-period `main`. -/
def periodStates (dl : List (String × RefEntry)) (rf : List String)
    (inputs : List (List RawResult)) : List (Nat × FetchState) :=
  inputs.enum.map
    (fun pr => (pr.1 + 1, fetch_data_for_period dl rf (pr.1 + 1) pr.2))

/-- `all_records`: the global record list accumulated over all periods. -/
def allRecords (dl : List (String × RefEntry)) (rf : List String)
    (inputs : List (List RawResult)) : List MetricRecord :=
  (periodStates dl rf inputs).flatMap (fun ps => ps.2.records)

/-- `all_periods_metadata`: the per-period metadata dictionaries. -/
def allPeriodsMetadata (dl : List (String × RefEntry)) (rf : List String)
    (inputs : List (List RawResult)) :
    List (Nat × List (String × FacMeta)) :=
  (periodStates dl rf inputs).map (fun ps => (ps.1, ps.2.metadata))

/-- C8 counterexample inputs: DUID X (region QLD1, not in the reference
data) is rejected by the NSW1 filter but still gets a metadata entry, so
it is observed in the period's metadata without becoming a column. -/
def dlC8 : List (String × RefEntry) :=
  [("Y", ⟨"NSW1", "FY", "O", "1", "10", "N/A", "N/A", "gas"⟩)]

def resC8 : List RawResult :=
  [⟨"X", "Unit X", "FX", "QLD1", "coal", [("2024-01-01T00:00:00", some 5)]⟩,
   ⟨"Y", "Unit Y", "FY", "NSW1", "gas", [("2024-01-02T00:00:00", some 7)]⟩]

/-- C8 counterexample: in a single-period run, DUID "X" is observed in the
period's metadata but is not a column of the output matrix, so the columns
are not "exactly the FacilityKeys observed in that period's metadata". -/
theorem C8_counterexample :
    "X" ∈ keysOf (fetch_data_for_period dlC8 ["NSW1"] 1 resC8).metadata ∧
    "X" ∉ singlePeriodColumns dlC8 ["NSW1"] resC8 := by
  decide

/-- C8 amended: a single-period run skips categorization and produces one
matrix whose columns are exactly the FacilityKeys with at least one
retained record in that period (the `valid_columns` filter removes
nothing, because every record key has a metadata entry whose DUID equals
the key and is not "N/A"); metadata-only keys with no records are not
columns. -/
theorem C8_single_period_columns (dl : List (String × RefEntry))
    (rf : List String) (results : List RawResult) :
    singlePeriodColumns dl rf results =
      colKeys (fetch_data_for_period dl rf 1 results).records ∧
    (∀ c, c ∈ singlePeriodColumns dl rf results ↔
      ∃ rec ∈ (fetch_data_for_period dl rf 1 results).records,
        rec.key = c) := by
  have hkeep : ∀ c ∈ colKeys (fetch_data_for_period dl rf 1 results).records,
      (match List.lookup c
          (fetch_data_for_period dl rf 1 results).metadata with
        | some meta => meta.duid != "N/A"
        | none => false) = true := by
    intro c hc
    obtain ⟨rec, hrec, hkey⟩ := mem_colKeys.mp hc
    have hmd : (List.lookup rec.key
        (fetch_data_for_period dl rf 1 results).metadata).isSome :=
      foldl_records_have_md dl rf 1 results ⟨[], []⟩
        (by intro rec h; exact absurd h (List.not_mem_nil _)) rec hrec
    rcases hsome : List.lookup rec.key
        (fetch_data_for_period dl rf 1 results).metadata with _ | meta
    · rw [hsome] at hmd
      simp at hmd
    · rcases foldl_metadata_from dl rf 1 results ⟨[], []⟩ rec.key meta hsome
        with hbase | ⟨r, _, hdk, hdna, hmeta⟩
      · simp [List.lookup] at hbase
      · rw [← hkey, hsome]
        have : meta.duid = rec.key := by
          rw [hmeta, mergedOf_duid, hdk]
        rw [bne_iff_ne, this, hkey]
        rw [← hkey, ← hdk]
        exact hdna
  have h1 : singlePeriodColumns dl rf results =
      colKeys (fetch_data_for_period dl rf 1 results).records := by
    unfold singlePeriodColumns valid_columns
    exact List.filter_eq_self.mpr hkeep
  refine ⟨h1, ?_⟩
  intro c
  rw [h1, mem_colKeys]

/-- Witness for the amended C8 on the counterexample inputs: the single
output matrix has exactly the keys with records as columns. -/
theorem C8_single_period_columns_witness :
    singlePeriodColumns dlC8 ["NSW1"] resC8 =
      colKeys (fetch_data_for_period dlC8 ["NSW1"] 1 resC8).records :=
  (C8_single_period_columns dlC8 ["NSW1"] resC8).1

/-- C9: every FacilityKey classified as decommissioned is a column of the
decommissioned matrix — column membership is the classification itself,
independent of data — and a decommissioned key with no aggregated records
has an all-zero column. -/
theorem C9_decommissioned_matrix (records : List MetricRecord)
    (decomm : List String) (k m : String) (hk : k ∈ decomm)
    (hnodata : ∀ rec ∈ records, rec.key ≠ k) :
    (decommMatrix records decomm).1 = decomm ∧
    k ∈ (decommMatrix records decomm).1 ∧
    (decommMatrix records decomm).2 m k = 0 ∧
    (decommMatrix records decomm).1 = (decommMatrix [] decomm).1 := by
  refine ⟨rfl, hk, ?_, rfl⟩
  show (if ((colKeys records).filter
      (fun c => decomm.contains c)).contains k then cell records m k else 0) = 0
  rw [if_neg]
  intro hc
  rw [List.elem_iff] at hc
  obtain ⟨rec, hrec, hkey⟩ := mem_colKeys.mp (List.mem_filter.mp hc).1
  exact hnodata rec hrec hkey

/-- Witness for C9: a decommissioned key with no records is an all-zero
column of the decommissioned matrix. -/
theorem C9_decommissioned_matrix_witness :
    (decommMatrix [⟨"2024-01-03", "U1", 5, 1⟩] ["D1"]).1 = ["D1"] ∧
    "D1" ∈ (decommMatrix [⟨"2024-01-03", "U1", 5, 1⟩] ["D1"]).1 ∧
    (decommMatrix [⟨"2024-01-03", "U1", 5, 1⟩] ["D1"]).2 "2024-01" "D1" = 0 ∧
    (decommMatrix [⟨"2024-01-03", "U1", 5, 1⟩] ["D1"]).1 =
      (decommMatrix [] ["D1"]).1 :=
  C9_decommissioned_matrix [⟨"2024-01-03", "U1", 5, 1⟩] ["D1"] "D1" "2024-01"
    (by decide) (by decide)

/-- C5 counterexample inputs: a two-period run in which DUID X (rejected
by the NSW1 region filter) appears only in period 1's metadata. -/
def dlC5 : List (String × RefEntry) :=
  [("Y", ⟨"NSW1", "FY", "O", "1", "10", "N/A", "N/A", "gas"⟩)]

def resC5a : List RawResult :=
  [⟨"X", "Unit X", "FX", "QLD1", "coal", [("2024-01-01T00:00:00", some 5)]⟩]

def resC5b : List RawResult :=
  [⟨"Y", "Unit Y", "FY", "NSW1", "gas", [("2025-01-02T00:00:00", some 7)]⟩]

def inputsC5 : List (List RawResult) := [resC5a, resC5b]

/-- C5 counterexample: DUID "X" is excluded by the Region Filter (both at
its actual call site and as the pure decision), yet it is a member of the
DecommissionedSet, because the metadata entry is recorded before the
filter check. -/
theorem C5_counterexample :
    should_include_duid "X"
        (fetch_data_for_period dlC5 ["NSW1"] 1 resC5a).metadata
        dlC5 ["NSW1"] = false ∧
    includePure "X" dlC5 ["NSW1"] = false ∧
    "X" ∈ (categorize_duids (allPeriodsMetadata dlC5 ["NSW1"] inputsC5)).2.1 := by
  decide

/-- C5 amended: a FacilityKey excluded by the Region Filter contributes no
records at all, so its monthly sums are zero, it is no column of the
monthly matrix and no column of the main (reference) matrix; but its
metadata is still recorded, so it can appear in the lifecycle sets and in
the decommissioned matrix. -/
theorem C5_excluded_keys (dl : List (String × RefEntry)) (rf : List String)
    (inputs : List (List RawResult)) (k m : String)
    (refDuids : List String)
    (hexc : includePure k dl rf = false) :
    (∀ rec ∈ allRecords dl rf inputs, rec.key ≠ k) ∧
    cell (allRecords dl rf inputs) m k = 0 ∧
    k ∉ colKeys (allRecords dl rf inputs) ∧
    k ∉ reference_columns (colKeys (allRecords dl rf inputs)) refDuids := by
  have h1 : ∀ rec ∈ allRecords dl rf inputs, rec.key ≠ k := by
    intro rec hrec hkey
    unfold allRecords at hrec
    rw [List.mem_flatMap] at hrec
    obtain ⟨ps, hps, hrec⟩ := hrec
    unfold periodStates at hps
    rw [List.mem_map] at hps
    obtain ⟨pr, _, hpr⟩ := hps
    rw [← hpr] at hrec
    have hok := foldl_records_ok dl rf (pr.1 + 1) pr.2 ⟨[], []⟩
      (by intro rec h; exact absurd h (List.not_mem_nil _)) rec hrec
    rw [hkey, hexc] at hok
    exact absurd hok.2.1 (by simp)
  refine ⟨h1, ?_, ?_, ?_⟩
  · rw [cell_eq_cellSpec]
    unfold cellSpec
    rw [List.filter_eq_nil_iff.mpr (by
      intro rec hrec
      simp only [decide_eq_true_eq]
      intro hc
      exact h1 rec hrec hc.2)]
    rfl
  · intro hc
    obtain ⟨rec, hrec, hkey⟩ := mem_colKeys.mp hc
    exact h1 rec hrec hkey
  · intro hc
    unfold reference_columns at hc
    obtain ⟨rec, hrec, hkey⟩ := mem_colKeys.mp (List.mem_filter.mp hc).1
    exact h1 rec hrec hkey

/-- Witness for the amended C5 on the counterexample inputs. -/
theorem C5_excluded_keys_witness :
    (∀ rec ∈ allRecords dlC5 ["NSW1"] inputsC5, rec.key ≠ "X") ∧
    cell (allRecords dlC5 ["NSW1"] inputsC5) "2024-01" "X" = 0 ∧
    "X" ∉ colKeys (allRecords dlC5 ["NSW1"] inputsC5) ∧
    "X" ∉ reference_columns (colKeys (allRecords dlC5 ["NSW1"] inputsC5))
      (categorize_duids (allPeriodsMetadata dlC5 ["NSW1"] inputsC5)).1 :=
  C5_excluded_keys dlC5 ["NSW1"] inputsC5 "X" "2024-01"
    (categorize_duids (allPeriodsMetadata dlC5 ["NSW1"] inputsC5)).1
    (by decide)

end NEM
